import Mathlib

/-
Verification development for the PicPixeller pixel-art converter
(src/src/components/pic-pixeller.tsx).

Modelling conventions:
* JavaScript numbers are modelled as exact rationals (ℚ); the pipeline's
  arithmetic (sums, products, divisions, floors, rounds) is carried out in ℚ.
* An ImageData value is a width, a height and a flat row-major RGBA byte list.
  Real ImageData objects always satisfy data.length = 4 * width * height and
  carry integer samples in [0, 255]; theorems that need these facts take them
  as hypotheses.
* Fallible code (JavaScript exceptions: the ImageData constructor rejecting
  zero or nonfinite dimensions, findClosestColor dereferencing an undefined
  entry of an empty palette) is modelled with Option, none standing for the
  thrown exception.
* The source compares square-root color distances; the embedding compares
  colorDistanceSq, the square of that distance, which induces exactly the
  same comparisons because the square root is strictly monotone on
  nonnegative reals (lemma colorDistance_lt_iff below makes this precise).
-/

set_option maxRecDepth 4000

/-- RGBA color record, channels as exact rationals. -/
structure Color where
  r : ℚ
  g : ℚ
  b : ℚ
  a : ℚ
deriving DecidableEq

/-- Flat image buffer: width, height and row-major RGBA data. -/
structure ImageData where
  width : ℕ
  height : ℕ
  data : List ℚ
deriving DecidableEq

/-- Per-pixel accumulated RGB error used by the dithering pass. -/
structure ErrRGB where
  r : ℚ
  g : ℚ
  b : ℚ
deriving DecidableEq

-- Perceptual channel weights from the constructor:
-- this.weights = { r: 0.299, g: 0.587, b: 0.114 }.
def weightR : ℚ := 299 / 1000

def weightG : ℚ := 587 / 1000

def weightB : ℚ := 114 / 1000

/-- JavaScript Math.round: round half away from zero on nonnegative inputs;
for every finite x, Math.round x = ⌊x + 1/2⌋ (also at negative halves, where
JavaScript rounds toward positive infinity). -/
def jsRound (q : ℚ) : ℤ := ⌊q + 1 / 2⌋

/-- The write-back normalization of setRGBA:
Math.max(0, Math.min(255, Math.round(v))). -/
def clampRound (q : ℚ) : ℚ := ((max 0 (min 255 (jsRound q)) : ℤ) : ℚ)

/-- getRGBA from the source: read the four channels at (x, y).
Out-of-range reads default to 0; all uses in the pipeline are in bounds. -/
def getRGBA (img : ImageData) (x y : ℕ) : Color :=
  let index := (y * img.width + x) * 4
  ⟨img.data.getD index 0, img.data.getD (index + 1) 0,
   img.data.getD (index + 2) 0, img.data.getD (index + 3) 0⟩

/-- setRGBA from the source, presented as the four bytes it writes at a pixel:
each channel is rounded and clamped to [0, 255]. -/
def setRGBA (color : Color) : List ℚ :=
  [clampRound color.r, clampRound color.g, clampRound color.b, clampRound color.a]

/-- Row-major assembly of a buffer from a per-pixel 4-byte block function.
Writing setRGBA blocks at index (y*w+x)*4 for every (x, y) in row-major order
into a fresh buffer produces exactly this concatenation. -/
def buildData (w h : ℕ) (f : ℕ → ℕ → List ℚ) : List ℚ :=
  (List.range h).flatMap fun y => (List.range w).flatMap fun x => f x y

/-- Row-major coordinate enumeration matching the nested
for (y) { for (x) { ... } } loops of the source. -/
def rowMajorCoords (w h : ℕ) : List (ℕ × ℕ) :=
  (List.range h).flatMap fun y => (List.range w).map fun x => (x, y)

/-- Weighted squared channel difference inside colorDistance:
rDiff² · 0.299 + gDiff² · 0.587 + bDiff² · 0.114. -/
def wsum (c1 c2 : Color) : ℚ :=
  (c1.r - c2.r) ^ 2 * weightR + (c1.g - c2.g) ^ 2 * weightG +
    (c1.b - c2.b) ^ 2 * weightB

/-- The grayscale-penalty test of colorDistance: the candidate is exactly
achromatic (r = g = b) and not pure black. -/
def isGrayCandidate (c : Color) : Prop :=
  c.r = c.g ∧ c.g = c.b ∧ ¬(c.r = 0 ∧ c.g = 0 ∧ c.b = 0)

instance (c : Color) : Decidable (isGrayCandidate c) := by
  unfold isGrayCandidate
  infer_instance

/-- Square of colorDistance. The source computes
dist = sqrt(wsum) and then multiplies by 1.5 for penalized gray candidates;
squaring turns the factor 1.5 into 9/4 and keeps every comparison intact. -/
def colorDistanceSq (c1 c2 : Color) : ℚ :=
  (if isGrayCandidate c2 then 9 / 4 else 1) * wsum c1 c2

/-- colorDistance itself, as the real number the source computes:
(1.5 when the candidate is penalized gray, else 1) · sqrt(wsum). -/
noncomputable def colorDistance (c1 c2 : Color) : ℝ :=
  (if isGrayCandidate c2 then 3 / 2 else 1) * Real.sqrt ((wsum c1 c2 : ℚ) : ℝ)

lemma wsum_nonneg (c1 c2 : Color) : 0 ≤ wsum c1 c2 := by
  unfold wsum weightR weightG weightB
  positivity

lemma wsum_self (c : Color) : wsum c c = 0 := by
  unfold wsum
  ring

lemma wsum_eq_zero_iff (c1 c2 : Color) :
    wsum c1 c2 = 0 ↔ c1.r = c2.r ∧ c1.g = c2.g ∧ c1.b = c2.b := by
  unfold wsum weightR weightG weightB
  constructor
  · intro h
    have hr : (c1.r - c2.r) ^ 2 = 0 := by
      nlinarith [sq_nonneg (c1.r - c2.r), sq_nonneg (c1.g - c2.g), sq_nonneg (c1.b - c2.b)]
    have hg : (c1.g - c2.g) ^ 2 = 0 := by
      nlinarith [sq_nonneg (c1.r - c2.r), sq_nonneg (c1.g - c2.g), sq_nonneg (c1.b - c2.b)]
    have hb : (c1.b - c2.b) ^ 2 = 0 := by
      nlinarith [sq_nonneg (c1.r - c2.r), sq_nonneg (c1.g - c2.g), sq_nonneg (c1.b - c2.b)]
    refine ⟨?_, ?_, ?_⟩
    · have := sq_eq_zero_iff.mp hr
      linarith [sub_eq_zero.mp this]
    · have := sq_eq_zero_iff.mp hg
      linarith [sub_eq_zero.mp this]
    · have := sq_eq_zero_iff.mp hb
      linarith [sub_eq_zero.mp this]
  · rintro ⟨h1, h2, h3⟩
    rw [h1, h2, h3]
    ring

lemma colorDistanceSq_nonneg (c1 c2 : Color) : 0 ≤ colorDistanceSq c1 c2 := by
  unfold colorDistanceSq
  have := wsum_nonneg c1 c2
  split <;> nlinarith

lemma colorDistanceSq_eq_zero_iff (c1 c2 : Color) :
    colorDistanceSq c1 c2 = 0 ↔ wsum c1 c2 = 0 := by
  unfold colorDistanceSq
  split <;> constructor <;> intro h <;> nlinarith

/-- colorDistanceSq depends only on the RGB channels of both arguments. -/
lemma colorDistanceSq_congr (p q c1 c2 : Color)
    (hpr : p.r = q.r) (hpg : p.g = q.g) (hpb : p.b = q.b)
    (h1r : c1.r = c2.r) (h1g : c1.g = c2.g) (h1b : c1.b = c2.b) :
    colorDistanceSq p c1 = colorDistanceSq q c2 := by
  unfold colorDistanceSq wsum isGrayCandidate
  simp only [hpr, hpg, hpb, h1r, h1g, h1b]

/-- The squared and the real distance induce the same strict comparisons:
this legitimizes comparing colorDistanceSq wherever the source compares
colorDistance values. -/
lemma colorDistance_lt_iff (c a b : Color) :
    colorDistance c a < colorDistance c b ↔
      colorDistanceSq c a < colorDistanceSq c b := by
  have key : ∀ x y : Color, colorDistance x y ^ 2 = ((colorDistanceSq x y : ℚ) : ℝ) := by
    intro x y
    unfold colorDistance colorDistanceSq
    have hw : (0 : ℝ) ≤ ((wsum x y : ℚ) : ℝ) := by
      exact_mod_cast wsum_nonneg x y
    split
    · push_cast
      rw [mul_pow, Real.sq_sqrt hw]
      norm_num
    · push_cast
      rw [mul_pow, Real.sq_sqrt hw]
      norm_num
  have nn : ∀ x y : Color, 0 ≤ colorDistance x y := by
    intro x y
    unfold colorDistance
    have := Real.sqrt_nonneg (((wsum x y : ℚ) : ℝ))
    split <;> nlinarith
  constructor
  · intro h
    have h2 : colorDistance c a ^ 2 < colorDistance c b ^ 2 :=
      pow_lt_pow_left₀ h (nn c a) (by norm_num)
    rw [key, key] at h2
    exact_mod_cast h2
  · intro h
    have h2 : ((colorDistanceSq c a : ℚ) : ℝ) < ((colorDistanceSq c b : ℚ) : ℝ) := by
      exact_mod_cast h
    rw [← key, ← key] at h2
    exact lt_of_pow_lt_pow_left₀ 2 (nn c b) h2

/-- Inner loop of findClosestColor: walk the remaining palette keeping the
current closest entry and its (squared) distance; the source updates on a
strict improvement (distance < minDistance). -/
def fccAux (c : Color) : Color → ℚ → List Color → Color
  | best, _, [] => best
  | best, bd, e :: es =>
    if colorDistanceSq c e < bd then fccAux c e (colorDistanceSq c e) es
    else fccAux c best bd es

/-- findClosestColor from the source. The source initializes
closest = palette[0] and minDistance = Infinity, so the first iteration always
installs the head of the palette; seeding the walk with the head and its
distance is the same computation. On an empty palette the source returns
undefined and the caller's setRGBA then throws, modelled by none. -/
def findClosestColor (color1 : Color) (palette : List Color) : Option Color :=
  match palette with
  | [] => none
  | p :: ps => some (fccAux color1 p (colorDistanceSq color1 p) ps)

/-- Per-pixel loop of quantizeColors in row-major coordinate order:
look up the nearest palette color and write its rounded bytes. -/
def quantLoop (img : ImageData) (palette : List Color) :
    List (ℕ × ℕ) → Option (List ℚ)
  | [] => some []
  | c :: rest =>
    match findClosestColor (getRGBA img c.1 c.2) palette with
    | none => none
    | some newColor => (quantLoop img palette rest).map fun t => setRGBA newColor ++ t

/-- quantizeColors from the source: a fresh buffer of identical dimensions in
which every pixel is replaced by its nearest palette color. -/
def quantizeColors (imageData : ImageData) (palette : List Color) : Option ImageData :=
  (quantLoop imageData palette (rowMajorCoords imageData.width imageData.height)).map
    fun d => ⟨imageData.width, imageData.height, d⟩

/-- distributeError from the source: push the residual into the error grid at
(x+1, y), (x-1, y+1), (x, y+1), (x+1, y+1) with weights 7/16, 3/16, 5/16,
1/16, skipping out-of-bounds targets. -/
def distributeError (errors : List (List ErrRGB)) (error : ErrRGB)
    (x y : ℕ) (w h : ℕ) : List (List ErrRGB) :=
  let distTargets : List (ℤ × ℤ × ℚ) :=
    [((x : ℤ) + 1, (y : ℤ), 7 / 16),
     ((x : ℤ) - 1, (y : ℤ) + 1, 3 / 16),
     ((x : ℤ), (y : ℤ) + 1, 5 / 16),
     ((x : ℤ) + 1, (y : ℤ) + 1, 1 / 16)]
  distTargets.foldl
    (fun errs t =>
      if 0 ≤ t.1 ∧ t.1 < (w : ℤ) ∧ 0 ≤ t.2.1 ∧ t.2.1 < (h : ℤ) then
        errs.modify
          (fun row =>
            row.modify
              (fun e => ⟨e.r + error.r * t.2.2, e.g + error.g * t.2.2, e.b + error.b * t.2.2⟩)
              t.1.toNat)
          t.2.1.toNat
      else errs)
    errors

/-- One pixel of the dithering pass: read the accumulated error, scale it by
strength to adjust the pixel (alpha untouched), pick the nearest palette
color for the adjusted value, and distribute the residual to the unvisited
neighbors; returns the chosen color and the updated error grid. -/
def ditherStep (img : ImageData) (palette : List Color) (strength : ℚ)
    (w h : ℕ) (x y : ℕ) (errors : List (List ErrRGB)) :
    Option (Color × List (List ErrRGB)) :=
  let pixel := getRGBA img x y
  let error := (errors.getD y []).getD x ⟨0, 0, 0⟩
  let adjusted : Color :=
    ⟨pixel.r + error.r * strength, pixel.g + error.g * strength,
     pixel.b + error.b * strength, pixel.a⟩
  match findClosestColor adjusted palette with
  | none => none
  | some newPixel =>
    let pixelError : ErrRGB :=
      ⟨adjusted.r - newPixel.r, adjusted.g - newPixel.g, adjusted.b - newPixel.b⟩
    some (newPixel, distributeError errors pixelError x y w h)

/-- Per-pixel loop of applyDithering in row-major order: run ditherStep and
write the chosen color's rounded bytes. -/
def ditherLoop (img : ImageData) (palette : List Color) (strength : ℚ)
    (w h : ℕ) : List (ℕ × ℕ) → List (List ErrRGB) → Option (List ℚ)
  | [], _ => some []
  | (x, y) :: rest, errors =>
    match ditherStep img palette strength w h x y errors with
    | none => none
    | some (newPixel, errs2) =>
      (ditherLoop img palette strength w h rest errs2).map
        fun t => setRGBA newPixel ++ t

/-- applyDithering from the source: zero-initialized error grid, then the
row-major per-pixel loop. -/
def applyDithering (imageData : ImageData) (palette : List Color)
    (strength : ℚ) : Option ImageData :=
  let errors := List.replicate imageData.height
    (List.replicate imageData.width (⟨0, 0, 0⟩ : ErrRGB))
  (ditherLoop imageData palette strength imageData.width imageData.height
      (rowMajorCoords imageData.width imageData.height) errors).map
    fun d => ⟨imageData.width, imageData.height, d⟩

/-- Luma of a color under the perceptual weights, as computed inside
isEdgePixel for the center and each neighbor. -/
def luma (c : Color) : ℚ := c.r * weightR + c.g * weightG + c.b * weightB

/-- getNeighborPixels from the source: the up-to-8 in-bounds neighbors in
(dy, dx) scan order. -/
def getNeighborPixels (img : ImageData) (x y : ℕ) : List Color :=
  ([-1, 0, 1] : List ℤ).flatMap fun dy =>
    ([-1, 0, 1] : List ℤ).flatMap fun dx =>
      if dx = 0 ∧ dy = 0 then []
      else
        let nx : ℤ := (x : ℤ) + dx
        let ny : ℤ := (y : ℤ) + dy
        if 0 ≤ nx ∧ nx < (img.width : ℤ) ∧ 0 ≤ ny ∧ ny < (img.height : ℤ) then
          [getRGBA img nx.toNat ny.toNat]
        else []

/-- isEdgePixel from the source: some neighbor's luma differs from the center
luma by strictly more than the threshold. -/
def isEdgePixel (center : Color) (neighbors : List Color) (threshold : ℚ) : Bool :=
  neighbors.any fun n => decide (threshold < |luma center - luma n|)

/-- averageColor from the source: channelwise arithmetic mean, alpha included. -/
def averageColor (pixels : List Color) : Color :=
  let sum := pixels.foldl
    (fun acc p => (⟨acc.r + p.r, acc.g + p.g, acc.b + p.b, acc.a + p.a⟩ : Color))
    ⟨0, 0, 0, 0⟩
  ⟨sum.r / pixels.length, sum.g / pixels.length,
   sum.b / pixels.length, sum.a / pixels.length⟩

/-- detectAndPreserveEdges from the source: the output starts as a copy of the
input; a pixel with at least one neighbor and no luma difference above the
threshold is overwritten with the rounded neighbor average; everything else
keeps its copied bytes. All neighbor reads go to the original input buffer. -/
def detectAndPreserveEdges (imageData : ImageData) (threshold : ℚ) : ImageData :=
  ⟨imageData.width, imageData.height,
    buildData imageData.width imageData.height fun x y =>
      let neighbors := getNeighborPixels imageData x y
      let center := getRGBA imageData x y
      if neighbors = [] then [center.r, center.g, center.b, center.a]
      else if isEdgePixel center neighbors threshold then
        [center.r, center.g, center.b, center.a]
      else setRGBA (averageColor neighbors)⟩

/-- resizeImage from the source: aspect-preserving nearest-neighbor resize.
targetHeight = Math.round(height * (targetWidth / width)); destination pixel
(x, y) samples source pixel (⌊x * width / targetWidth⌋, ⌊y * height / targetHeight⌋).
none models the ImageData constructor throwing when a computed dimension is
zero (or, for width = 0, nonfinite). -/
def resizeImage (imageData : ImageData) (targetWidth : ℕ) : Option ImageData :=
  let targetHeight := (jsRound ((imageData.height : ℚ) * targetWidth / imageData.width)).toNat
  if targetWidth = 0 ∨ targetHeight = 0 then none
  else
    let scaleX : ℚ := (imageData.width : ℚ) / targetWidth
    let scaleY : ℚ := (imageData.height : ℚ) / targetHeight
    some ⟨targetWidth, targetHeight,
      buildData targetWidth targetHeight fun x y =>
        setRGBA (getRGBA imageData (⌊(x : ℚ) * scaleX⌋).toNat (⌊(y : ℚ) * scaleY⌋).toNat)⟩

/-- HSL triple produced by rgbToHsl. -/
structure HSL where
  h : ℚ
  s : ℚ
  l : ℚ
deriving DecidableEq

/-- rgbToHsl from the source: normalize to [0,1], lightness from max/min,
achromatic shortcut, six-case hue formula (the switch tests r, then g, then b)
and final division of the hue by 6. -/
def rgbToHsl (r0 g0 b0 : ℚ) : HSL :=
  let r := r0 / 255
  let g := g0 / 255
  let b := b0 / 255
  let mx := max r (max g b)
  let mn := min r (min g b)
  let l := (mx + mn) / 2
  if mx = mn then ⟨0, 0, l⟩
  else
    let d := mx - mn
    let s := if l > 1 / 2 then d / (2 - mx - mn) else d / (mx + mn)
    let hue :=
      if mx = r then (g - b) / d + (if g < b then 6 else 0)
      else if mx = g then (b - r) / d + 2
      else (r - g) / d + 4
    ⟨hue / 6, s, l⟩

/-- Pixel record built at the top of generatePalette ({r, g, b, h, s, l};
the count field of the source record is written as 1 and never read, so it is
omitted). -/
structure PalPixel where
  r : ℚ
  g : ℚ
  b : ℚ
  h : ℚ
  s : ℚ
  l : ℚ
deriving DecidableEq

/-- Running sums of one saturation-lightness grid cell. -/
structure SLCell where
  r : ℚ
  g : ℚ
  b : ℚ
  count : ℕ
deriving DecidableEq

/-- A mean cell color with its usage weight, as collected into the palette
before the final truncation. -/
structure WeightedColor where
  r : ℚ
  g : ℚ
  b : ℚ
  count : ℕ
deriving DecidableEq

/-- The RGB triples of a buffer, in data order: the source iterates
for (i = 0; i < data.length; i += 4) reading channels i, i+1, i+2. -/
def rgbTriples : List ℚ → List (ℚ × ℚ × ℚ)
  | r :: g :: b :: _ :: rest => (r, g, b) :: rgbTriples rest
  | _ => []

/-- JavaScript Map.get(k).push(v) / Map.set(k, [v]) over an insertion-ordered
association list, as used for the hue bins. -/
def mapPush (k : ℕ) (v : PalPixel) : List (ℕ × List PalPixel) → List (ℕ × List PalPixel)
  | [] => [(k, [v])]
  | (k1, vs) :: rest =>
    if k1 = k then (k1, vs ++ [v]) :: rest else (k1, vs) :: mapPush k v rest

/-- Accumulate one pixel into its saturation-lightness grid cell, keyed by
(sIndex, lIndex), insertion-ordered like the source's string-keyed Map. -/
def cellPush (k : ℕ × ℕ) (p : PalPixel) :
    List ((ℕ × ℕ) × SLCell) → List ((ℕ × ℕ) × SLCell)
  | [] => [(k, ⟨p.r, p.g, p.b, 1⟩)]
  | (k1, cell) :: rest =>
    if k1 = k then (k1, ⟨cell.r + p.r, cell.g + p.g, cell.b + p.b, cell.count + 1⟩) :: rest
    else (k1, cell) :: cellPush k p rest

/-- Stable insertion of an element into a list already sorted by descending
count: skip over strictly larger counts, stop at the first count less than or
equal to the inserted one. -/
def insertByCount (x : WeightedColor) : List WeightedColor → List WeightedColor
  | [] => [x]
  | y :: ys => if y.count > x.count then y :: insertByCount x ys else x :: y :: ys

/-- Stable sort by descending count, matching the JavaScript stable
Array.prototype.sort with comparator (a, b) => b.count - a.count. -/
def sortByCountDesc : List WeightedColor → List WeightedColor
  | [] => []
  | x :: xs => insertByCount x (sortByCountDesc xs)

/-- generatePalette from the source: convert every pixel to HSL, group by the
12 hue bins in insertion order, grid each bin by saturation and lightness,
average each cell keeping its pixel count, keep the ceil(colorLimit/12)
heaviest cells per bin, then globally sort by weight, truncate to colorLimit
and finalize with alpha 255. -/
def generatePalette (imageData : ImageData) (colorLimit : ℕ) : List Color :=
  let pixels := (rgbTriples imageData.data).map fun t =>
    let hsl := rgbToHsl t.1 t.2.1 t.2.2
    (⟨t.1, t.2.1, t.2.2, hsl.h, hsl.s, hsl.l⟩ : PalPixel)
  let hueBins := pixels.foldl (fun m p => mapPush (⌊p.h * 12⌋).toNat p m) []
  let colorsPerBin := (colorLimit + 11) / 12
  let palette := hueBins.flatMap fun bin =>
    if bin.2 = [] then []
    else
      let slGrid := bin.2.foldl
        (fun m p => cellPush ((⌊p.s * 4⌋).toNat, (⌊p.l * 4⌋).toNat) p m) []
      let cellColors := slGrid.map fun kc =>
        (⟨(jsRound ((kc.2.r : ℚ) / kc.2.count) : ℤ),
          (jsRound ((kc.2.g : ℚ) / kc.2.count) : ℤ),
          (jsRound ((kc.2.b : ℚ) / kc.2.count) : ℤ), kc.2.count⟩ : WeightedColor)
      (sortByCountDesc cellColors).take colorsPerBin
  ((sortByCountDesc palette).take colorLimit).map fun c => ⟨c.r, c.g, c.b, 255⟩

/-- The conversion options record; every field is optional, none standing for
an absent key (or null, for the palette). -/
structure Options where
  targetWidth : Option ℕ
  colorLimit : Option ℕ
  dithering : Option Bool
  preserveEdges : Option Bool
  edgeThreshold : Option ℚ
  posterizationLevels : Option ℚ
  ditheringStrength : Option ℚ
  palette : Option (List Color)
deriving DecidableEq

/-- The all-absent options record ({}). -/
def noOptions : Options := ⟨none, none, none, none, none, none, none, none⟩

/-- The instance state the PicPixeller constructor builds. The class only
ever reads options.edgeThreshold and options.ditheringStrength from its own
options (posterizationLevels is stored but never read), so the state keeps
exactly the merged values of the fields the methods consume. -/
structure PicPixellerState where
  edgeThreshold : ℚ
  posterizationLevels : ℚ
  ditheringStrength : ℚ
deriving DecidableEq

/-- The constructor: this.options = { edgeThreshold: 100,
posterizationLevels: 8, ditheringStrength: 1.0, ...options }. -/
def PicPixeller.new (options : Options) : PicPixellerState :=
  ⟨options.edgeThreshold.getD 100, options.posterizationLevels.getD 8,
   options.ditheringStrength.getD 1⟩

/-- convertToPixelArt from the source: destructure the per-call options with
their defaults (ditheringStrength falling back to the instance options),
resize, optionally edge-preserve with the instance edgeThreshold, take the
supplied palette if one is given (JavaScript palette || generatePalette:
an empty array is truthy and is used as-is), then dither or quantize. -/
def convertToPixelArt (self : PicPixellerState) (imageData : ImageData)
    (options : Options) : Option ImageData :=
  let targetWidth := options.targetWidth.getD 64
  let colorLimit := options.colorLimit.getD 32
  let dithering := options.dithering.getD true
  let preserveEdges := options.preserveEdges.getD true
  let ditheringStrength := options.ditheringStrength.getD self.ditheringStrength
  match resizeImage imageData targetWidth with
  | none => none
  | some resized =>
    let processed := if preserveEdges then detectAndPreserveEdges resized self.edgeThreshold
      else resized
    let colorPalette := options.palette.getD (generatePalette processed colorLimit)
    if dithering then applyDithering processed colorPalette ditheringStrength
    else quantizeColors processed colorPalette

lemma fccAux_mem (c : Color) :
    ∀ (l : List Color) (best : Color) (bd : ℚ),
      fccAux c best bd l = best ∨ fccAux c best bd l ∈ l := by
  intro l
  induction l with
  | nil => intro best bd; left; rfl
  | cons e es ih =>
    intro best bd
    simp only [fccAux]
    by_cases hlt : colorDistanceSq c e < bd
    · rw [if_pos hlt]
      rcases ih e (colorDistanceSq c e) with h | h
      · right; rw [h]; exact List.mem_cons_self e es
      · right; exact List.mem_cons_of_mem e h
    · rw [if_neg hlt]
      rcases ih best bd with h | h
      · left; exact h
      · right; exact List.mem_cons_of_mem e h

lemma findClosestColor_mem (c : Color) (palette : List Color) (r : Color)
    (h : findClosestColor c palette = some r) : r ∈ palette := by
  cases palette with
  | nil => simp [findClosestColor] at h
  | cons p ps =>
    simp only [findClosestColor, Option.some.injEq] at h
    rcases fccAux_mem c ps p (colorDistanceSq c p) with h2 | h2
    · rw [← h, h2]; exact List.mem_cons_self p ps
    · rw [← h]; exact List.mem_cons_of_mem p h2

lemma fccAux_stay (c : Color) :
    ∀ (l : List Color) (best : Color) (bd : ℚ),
      (∀ e ∈ l, bd ≤ colorDistanceSq c e) → fccAux c best bd l = best := by
  intro l
  induction l with
  | nil => intro best bd _; rfl
  | cons e es ih =>
    intro best bd hle
    simp only [fccAux]
    rw [if_neg (not_lt.mpr (hle e (List.mem_cons_self e es)))]
    exact ih best bd fun x hx => hle x (List.mem_cons_of_mem e hx)

lemma fccAux_first (c r : Color) :
    ∀ (l1 : List Color) (best : Color) (l2 : List Color),
      (∀ e ∈ l1, colorDistanceSq c r < colorDistanceSq c e) →
      colorDistanceSq c r < colorDistanceSq c best →
      (∀ e ∈ l2, colorDistanceSq c r ≤ colorDistanceSq c e) →
      fccAux c best (colorDistanceSq c best) (l1 ++ r :: l2) = r := by
  intro l1
  induction l1 with
  | nil =>
    intro best l2 _ hbest hle
    simp only [List.nil_append, fccAux]
    rw [if_pos hbest]
    exact fccAux_stay c l2 r (colorDistanceSq c r) hle
  | cons e m ih =>
    intro best l2 hstrict hbest hle
    simp only [List.cons_append, fccAux]
    by_cases hlt : colorDistanceSq c e < colorDistanceSq c best
    · rw [if_pos hlt]
      exact ih e l2 (fun x hx => hstrict x (List.mem_cons_of_mem e hx))
        (hstrict e (List.mem_cons_self e m)) hle
    · rw [if_neg hlt]
      exact ih best l2 (fun x hx => hstrict x (List.mem_cons_of_mem e hx)) hbest hle


lemma fccAux_split (c : Color) :
    ∀ (l : List Color) (best : Color),
      ∃ l1 l2,
        best :: l = l1 ++ (fccAux c best (colorDistanceSq c best) l) :: l2 ∧
        (∀ e ∈ l1, colorDistanceSq c (fccAux c best (colorDistanceSq c best) l) <
          colorDistanceSq c e) ∧
        (∀ e ∈ l2, colorDistanceSq c (fccAux c best (colorDistanceSq c best) l) ≤
          colorDistanceSq c e) := by
  intro l
  induction l with
  | nil =>
    intro best
    exact ⟨[], [], by simp [fccAux]⟩
  | cons e es ih =>
    intro best
    simp only [fccAux]
    by_cases hlt : colorDistanceSq c e < colorDistanceSq c best
    · rw [if_pos hlt]
      obtain ⟨l1, l2, heq, hstrict, hle⟩ := ih e
      have hres : colorDistanceSq c (fccAux c e (colorDistanceSq c e) es) ≤
          colorDistanceSq c e := by
        cases l1 with
        | nil =>
          have h2 := heq
          simp only [List.nil_append, List.cons.injEq] at h2
          rw [← h2.1]
        | cons a l1t =>
          have h2 := heq
          simp only [List.cons_append, List.cons.injEq] at h2
          refine le_of_lt (hstrict e ?_)
          rw [h2.1]
          exact List.mem_cons_self a l1t
      refine ⟨best :: l1, l2, by rw [List.cons_append, ← heq], ?_, hle⟩
      intro x hx
      rcases List.mem_cons.mp hx with hx | hx
      · subst hx
        exact lt_of_le_of_lt hres hlt
      · exact hstrict x hx
    · rw [if_neg hlt]
      obtain ⟨l1, l2, heq, hstrict, hle⟩ := ih best
      cases l1 with
      | nil =>
        have h2 := heq
        simp only [List.nil_append, List.cons.injEq] at h2
        refine ⟨[], e :: es, ?_, by simp, ?_⟩
        · rw [List.nil_append, ← h2.1]
        · intro x hx
          rcases List.mem_cons.mp hx with hx | hx
          · subst hx
            rw [← h2.1]
            exact not_lt.mp hlt
          · refine hle x ?_
            rw [← h2.2]
            exact hx
      | cons a l1t =>
        have h2 := heq
        simp only [List.cons_append, List.cons.injEq] at h2
        have hbmem : best ∈ a :: l1t := by
          rw [← h2.1]
          exact List.mem_cons_self best l1t
        refine ⟨best :: e :: l1t, l2, ?_, ?_, hle⟩
        · simp only [List.cons_append, List.cons.injEq, true_and]
          exact h2.2
        · intro x hx
          rcases List.mem_cons.mp hx with hx | hx
          · rw [hx]
            exact hstrict best hbmem
          rcases List.mem_cons.mp hx with hx2 | hx2
          · rw [hx2]
            exact lt_of_lt_of_le (hstrict best hbmem) (not_lt.mp hlt)
          · exact hstrict x (List.mem_cons_of_mem a hx2)

/-- findClosestColor picks the first palette entry attaining the minimum
squared distance: everything before it is strictly farther, everything after
it is no closer. -/
lemma findClosestColor_split (c : Color) (palette : List Color) (r : Color)
    (h : findClosestColor c palette = some r) :
    ∃ l1 l2, palette = l1 ++ r :: l2 ∧
      (∀ e ∈ l1, colorDistanceSq c r < colorDistanceSq c e) ∧
      (∀ e ∈ l2, colorDistanceSq c r ≤ colorDistanceSq c e) := by
  cases palette with
  | nil => simp [findClosestColor] at h
  | cons p ps =>
    simp only [findClosestColor, Option.some.injEq] at h
    obtain ⟨l1, l2, heq, hstrict, hle⟩ := fccAux_split c ps p
    rw [h] at heq hstrict hle
    exact ⟨l1, l2, heq, hstrict, hle⟩

/-- Conversely, the first entry that is strictly closer than everything
before it and at least as close as everything after it is the one
findClosestColor returns. -/
lemma findClosestColor_first (c r : Color) (l1 l2 : List Color)
    (hstrict : ∀ e ∈ l1, colorDistanceSq c r < colorDistanceSq c e)
    (hle : ∀ e ∈ l2, colorDistanceSq c r ≤ colorDistanceSq c e) :
    findClosestColor c (l1 ++ r :: l2) = some r := by
  cases l1 with
  | nil =>
    simp only [List.nil_append, findClosestColor, Option.some.injEq]
    exact fccAux_stay c l2 r (colorDistanceSq c r) hle
  | cons a l1t =>
    simp only [List.cons_append, findClosestColor, Option.some.injEq]
    exact fccAux_first c r l1t a l2
      (fun x hx => hstrict x (List.mem_cons_of_mem a hx))
      (hstrict a (List.mem_cons_self a l1t)) hle

lemma flatMap_const_length {α β : Type} (l : List α) (f : α → List β) (k : ℕ)
    (hf : ∀ x ∈ l, (f x).length = k) : (l.flatMap f).length = k * l.length := by
  induction l with
  | nil => simp
  | cons a l ih =>
    simp only [List.flatMap_cons, List.length_append, List.length_cons]
    rw [hf a (List.mem_cons_self a l), ih fun x hx => hf x (List.mem_cons_of_mem a hx)]
    ring

lemma rowData_length (w : ℕ) (g : ℕ → List ℚ) (hg : ∀ x, (g x).length = 4) :
    ((List.range w).flatMap g).length = 4 * w := by
  rw [flatMap_const_length (List.range w) g 4 fun x _ => hg x, List.length_range]

lemma rowData_getD (w : ℕ) (g : ℕ → List ℚ) (hg : ∀ x, (g x).length = 4)
    (x j : ℕ) (hx : x < w) (hj : j < 4) :
    ((List.range w).flatMap g).getD (x * 4 + j) 0 = (g x).getD j 0 := by
  induction w with
  | zero => omega
  | succ n ih =>
    rw [List.range_succ, List.flatMap_append]
    rcases Nat.lt_or_ge x n with hxn | hxn
    · rw [List.getD_append]
      · exact ih hxn
      · have hlen : ((List.range n).flatMap g).length = 4 * n := rowData_length n g hg
        have : x * 4 + j < 4 * n := by
          have h1 : x * 4 + 4 ≤ n * 4 := by
            have := Nat.succ_le_of_lt hxn
            calc x * 4 + 4 = (x + 1) * 4 := by ring
            _ ≤ n * 4 := Nat.mul_le_mul_right 4 this
          omega
        omega
    · have hxeq : x = n := by omega
      subst hxeq
      have hlen : ((List.range x).flatMap g).length = 4 * x := rowData_length x g hg
      rw [List.getD_append_right]
      · simp only [List.flatMap_cons, List.flatMap_nil, List.append_nil, hlen]
        have : x * 4 + j - 4 * x = j := by omega
        rw [this]
      · omega

lemma buildData_length (w h : ℕ) (f : ℕ → ℕ → List ℚ)
    (hf : ∀ x y, (f x y).length = 4) : (buildData w h f).length = 4 * w * h := by
  unfold buildData
  rw [flatMap_const_length (List.range h) _ (4 * w)
    fun y _ => rowData_length w (fun x => f x y) fun x => hf x y, List.length_range]

lemma buildData_getD (w h : ℕ) (f : ℕ → ℕ → List ℚ)
    (hf : ∀ x y, (f x y).length = 4) (x y j : ℕ)
    (hx : x < w) (hy : y < h) (hj : j < 4) :
    (buildData w h f).getD ((y * w + x) * 4 + j) 0 = (f x y).getD j 0 := by
  induction h with
  | zero => omega
  | succ n ih =>
    unfold buildData at ih ⊢
    rw [List.range_succ, List.flatMap_append]
    rcases Nat.lt_or_ge y n with hyn | hyn
    · rw [List.getD_append]
      · exact ih hyn
      · have hlen : ((List.range n).flatMap fun y =>
            (List.range w).flatMap fun x => f x y).length = 4 * w * n := by
          rw [flatMap_const_length (List.range n) _ (4 * w)
            fun z _ => rowData_length w (fun x => f x z) fun x => hf x z, List.length_range]
        have hxw : y * w + x < n * w := by
          have h1 : y * w + w ≤ n * w := by
            have := Nat.succ_le_of_lt hyn
            calc y * w + w = (y + 1) * w := by ring
            _ ≤ n * w := Nat.mul_le_mul_right w this
          omega
        have h2 : (y * w + x) * 4 + 4 ≤ (n * w) * 4 := by
          have := Nat.succ_le_of_lt hxw
          calc (y * w + x) * 4 + 4 = (y * w + x + 1) * 4 := by ring
          _ ≤ (n * w) * 4 := Nat.mul_le_mul_right 4 this
        rw [hlen]
        have hconv : 4 * w * n = (n * w) * 4 := by ring
        rw [hconv]
        omega
    · have hyeq : y = n := by omega
      subst hyeq
      have hlen : ((List.range y).flatMap fun z =>
          (List.range w).flatMap fun x => f x z).length = 4 * w * y := by
        rw [flatMap_const_length (List.range y) _ (4 * w)
          fun z _ => rowData_length w (fun x => f x z) fun x => hf x z, List.length_range]
      rw [List.getD_append_right]
      · simp only [List.flatMap_cons, List.flatMap_nil, List.append_nil, hlen]
        have harith : (y * w + x) * 4 + j - 4 * w * y = x * 4 + j := by
          have : (y * w + x) * 4 + j = 4 * w * y + (x * 4 + j) := by ring
          omega
        rw [harith]
        exact rowData_getD w (fun x2 => f x2 y) (fun x2 => hf x2 y) x j hx hj
      · rw [hlen]
        have : 4 * w * y ≤ (y * w + x) * 4 + j := by
          have : (y * w + x) * 4 + j = 4 * w * y + (x * 4 + j) := by ring
          omega
        omega

/-- Membership in the row-major coordinate list is exactly being in range. -/
lemma mem_rowMajorCoords (w h x y : ℕ) :
    (x, y) ∈ rowMajorCoords w h ↔ x < w ∧ y < h := by
  unfold rowMajorCoords
  simp only [List.mem_flatMap, List.mem_map, List.mem_range, Prod.mk.injEq]
  constructor
  · rintro ⟨b, hb, a, ha, hax, hby⟩
    exact ⟨hax ▸ ha, hby ▸ hb⟩
  · rintro ⟨hx, hy⟩
    exact ⟨y, hy, x, hx, rfl, rfl⟩

/-- Flattening per-coordinate 4-byte blocks over the row-major coordinate
list is the same as assembling the buffer with buildData. -/
lemma rowMajor_flatMap_eq_buildData (w h : ℕ) (F : ℕ × ℕ → List ℚ) :
    (rowMajorCoords w h).flatMap F = buildData w h fun x y => F (x, y) := by
  unfold rowMajorCoords buildData
  rw [List.flatMap_assoc]
  simp only [List.flatMap_map]



lemma jsRound_intCast (m : ℤ) : jsRound (m : ℚ) = m := by
  unfold jsRound
  have h1 : ((m : ℚ)) ≤ (m : ℚ) + 1 / 2 := by linarith
  refine Int.floor_eq_iff.mpr ⟨h1, ?_⟩
  linarith

lemma clampRound_natCast (n : ℕ) (h : n ≤ 255) : clampRound (n : ℚ) = n := by
  unfold clampRound
  rw [show ((n : ℚ)) = ((n : ℤ) : ℚ) by push_cast; rfl, jsRound_intCast]
  have h1 : min 255 (n : ℤ) = (n : ℤ) := by omega
  rw [h1]
  have h2 : max 0 (n : ℤ) = (n : ℤ) := by omega
  rw [h2]

/-- With a nonempty palette, the quantization loop never fails and produces
the row-major concatenation of the per-pixel nearest-color bytes. -/
lemma quantLoop_eq (img : ImageData) (p : Color) (ps : List Color) :
    ∀ coords : List (ℕ × ℕ),
      quantLoop img (p :: ps) coords =
        some (coords.flatMap fun c =>
          setRGBA (fccAux (getRGBA img c.1 c.2) p
            (colorDistanceSq (getRGBA img c.1 c.2) p) ps)) := by
  intro coords
  induction coords with
  | nil => rfl
  | cons c rest ih =>
    simp only [quantLoop, findClosestColor, ih, List.flatMap_cons]
    rfl

lemma quantizeColors_dims (img : ImageData) (palette : List Color)
    (out : ImageData) (h : quantizeColors img palette = some out) :
    out.width = img.width ∧ out.height = img.height := by
  unfold quantizeColors at h
  rw [Option.map_eq_some'] at h
  obtain ⟨d, _, hout⟩ := h
  rw [← hout]
  exact ⟨rfl, rfl⟩

lemma applyDithering_dims (img : ImageData) (palette : List Color) (s : ℚ)
    (out : ImageData) (h : applyDithering img palette s = some out) :
    out.width = img.width ∧ out.height = img.height := by
  unfold applyDithering at h
  simp only [Option.map_eq_some'] at h
  obtain ⟨d, _, hout⟩ := h
  rw [← hout]
  exact ⟨rfl, rfl⟩

/-- With a nonempty palette, one dithering step always succeeds. -/
lemma ditherStep_total (img : ImageData) (p : Color) (ps : List Color)
    (s : ℚ) (w h x y : ℕ) (errors : List (List ErrRGB)) :
    ∃ pr, ditherStep img (p :: ps) s w h x y errors = some pr := by
  simp only [ditherStep, findClosestColor]
  exact ⟨_, rfl⟩

/-- The color a dithering step chooses comes from the palette. -/
lemma ditherStep_mem (img : ImageData) (palette : List Color) (s : ℚ)
    (w h x y : ℕ) (errors : List (List ErrRGB)) (np : Color)
    (errs2 : List (List ErrRGB))
    (hstep : ditherStep img palette s w h x y errors = some (np, errs2)) :
    np ∈ palette := by
  simp only [ditherStep] at hstep
  split at hstep
  · simp at hstep
  · rename_i newPixel hfc
    simp only [Option.some.injEq, Prod.mk.injEq] at hstep
    rw [← hstep.1]
    exact findClosestColor_mem _ palette newPixel hfc

/-- With a nonempty palette the dithering loop never fails, and it emits four
bytes per visited pixel. -/
lemma ditherLoop_total (img : ImageData) (p : Color) (ps : List Color)
    (s : ℚ) (w h : ℕ) :
    ∀ (coords : List (ℕ × ℕ)) (errors : List (List ErrRGB)),
      ∃ d, ditherLoop img (p :: ps) s w h coords errors = some d ∧
        d.length = 4 * coords.length := by
  intro coords
  induction coords with
  | nil => intro errors; exact ⟨[], rfl, rfl⟩
  | cons c rest ih =>
    intro errors
    obtain ⟨x, y⟩ := c
    obtain ⟨⟨np, errs2⟩, hstep⟩ := ditherStep_total img p ps s w h x y errors
    obtain ⟨d, hd, hlen⟩ := ih errs2
    refine ⟨setRGBA np ++ d, ?_, ?_⟩
    · simp only [ditherLoop, hstep, hd, Option.map_some']
    · simp only [List.length_append, setRGBA, List.length_cons, List.length_nil, hlen]
      omega

lemma setRGBA_length (c : Color) : (setRGBA c).length = 4 := rfl

lemma clampRound_255 : clampRound (255 : ℚ) = 255 := by
  have h := clampRound_natCast 255 (by norm_num)
  norm_num at h
  exact h

/-- At strength 0 the error feedback vanishes: the adjusted pixel is the
original pixel, so each dithering step chooses exactly what quantization
chooses, whatever the error grid holds. -/
lemma ditherLoop_zero (img : ImageData) (palette : List Color) (w h : ℕ) :
    ∀ (coords : List (ℕ × ℕ)) (errors : List (List ErrRGB)),
      ditherLoop img palette 0 w h coords errors = quantLoop img palette coords := by
  intro coords
  induction coords with
  | nil => intro errors; rfl
  | cons c rest ih =>
    intro errors
    obtain ⟨x, y⟩ := c
    have heta : (⟨(getRGBA img x y).r, (getRGBA img x y).g, (getRGBA img x y).b,
        (getRGBA img x y).a⟩ : Color) = getRGBA img x y := rfl
    simp only [ditherLoop, ditherStep, mul_zero, add_zero, heta, quantLoop]
    cases hfc : findClosestColor (getRGBA img x y) palette with
    | none => rfl
    | some np =>
      simp only [ih]

/-- Every pixel written by the quantization loop carries the alpha of a
palette entry; with an all-opaque palette every written alpha byte is 255. -/
lemma quantLoop_alpha (img : ImageData) (palette : List Color)
    (hpal : ∀ e ∈ palette, e.a = 255) :
    ∀ (coords : List (ℕ × ℕ)) (d : List ℚ),
      quantLoop img palette coords = some d →
      ∀ i, 4 * i + 3 < d.length → d.getD (4 * i + 3) 0 = 255 := by
  intro coords
  induction coords with
  | nil =>
    intro d hd i hi
    simp only [quantLoop, Option.some.injEq] at hd
    rw [← hd] at hi
    simp at hi
  | cons c rest ih =>
    intro d hd i hi
    simp only [quantLoop] at hd
    split at hd
    · simp at hd
    · rename_i newColor hfc
      rw [Option.map_eq_some'] at hd
      obtain ⟨t, ht, hdt⟩ := hd
      rw [← hdt] at hi ⊢
      have h255 : newColor.a = 255 :=
        hpal newColor (findClosestColor_mem _ palette newColor hfc)
      cases i with
      | zero =>
        simp only [setRGBA, List.cons_append, List.nil_append]
        norm_num
        rw [h255]
        exact clampRound_255
      | succ n =>
        have hidx : 4 ≤ 4 * (n + 1) + 3 := by omega
        rw [List.getD_append_right (setRGBA newColor) t 0 _ (by rw [setRGBA_length]; omega)]
        rw [setRGBA_length]
        have harith : 4 * (n + 1) + 3 - 4 = 4 * n + 3 := by omega
        rw [harith]
        refine ih t ht n ?_
        simp only [List.length_append, setRGBA_length] at hi
        omega

/-- Every pixel written by the dithering loop carries the alpha of a palette
entry; with an all-opaque palette every written alpha byte is 255. -/
lemma ditherLoop_alpha (img : ImageData) (palette : List Color) (s : ℚ)
    (w h : ℕ) (hpal : ∀ e ∈ palette, e.a = 255) :
    ∀ (coords : List (ℕ × ℕ)) (errors : List (List ErrRGB)) (d : List ℚ),
      ditherLoop img palette s w h coords errors = some d →
      ∀ i, 4 * i + 3 < d.length → d.getD (4 * i + 3) 0 = 255 := by
  intro coords
  induction coords with
  | nil =>
    intro errors d hd i hi
    simp only [ditherLoop, Option.some.injEq] at hd
    rw [← hd] at hi
    simp at hi
  | cons c rest ih =>
    intro errors d hd i hi
    obtain ⟨x, y⟩ := c
    simp only [ditherLoop] at hd
    split at hd
    · simp at hd
    · rename_i np errs2 hstep
      rw [Option.map_eq_some'] at hd
      obtain ⟨t, ht, hdt⟩ := hd
      rw [← hdt] at hi ⊢
      have h255 : np.a = 255 :=
        hpal np (ditherStep_mem img palette s w h x y errors np errs2 hstep)
      cases i with
      | zero =>
        simp only [setRGBA, List.cons_append, List.nil_append]
        norm_num
        rw [h255]
        exact clampRound_255
      | succ n =>
        rw [List.getD_append_right (setRGBA np) t 0 _ (by rw [setRGBA_length]; omega)]
        rw [setRGBA_length]
        have harith : 4 * (n + 1) + 3 - 4 = 4 * n + 3 := by omega
        rw [harith]
        refine ih errs2 t ht n ?_
        simp only [List.length_append, setRGBA_length] at hi
        omega

/-- A color whose RGB channels are integers in [0, 255] (the form of every
palette entry produced by generatePalette and of the documented palette
exchange format). -/
def IntChannels (c : Color) : Prop :=
  (∃ n : ℕ, n ≤ 255 ∧ c.r = n) ∧ (∃ n : ℕ, n ≤ 255 ∧ c.g = n) ∧
    (∃ n : ℕ, n ≤ 255 ∧ c.b = n)

lemma flatMap_congr_mem {α β : Type} (l : List α) (f g : α → List β)
    (h : ∀ a ∈ l, f a = g a) : l.flatMap f = l.flatMap g := by
  induction l with
  | nil => rfl
  | cons a t ih =>
    simp only [List.flatMap_cons, h a (List.mem_cons_self a t),
      ih fun x hx => h x (List.mem_cons_of_mem a hx)]

lemma buildData_congr (w h : ℕ) (f g : ℕ → ℕ → List ℚ)
    (hfg : ∀ x y, x < w → y < h → f x y = g x y) :
    buildData w h f = buildData w h g := by
  unfold buildData
  refine flatMap_congr_mem _ _ _ fun y hy => ?_
  refine flatMap_congr_mem _ _ _ fun x hx => ?_
  exact hfg x y (List.mem_range.mp hx) (List.mem_range.mp hy)

/-- quantizeColors with a nonempty palette, written as a buildData buffer. -/
lemma quantizeColors_cons (img : ImageData) (p : Color) (ps : List Color) :
    quantizeColors img (p :: ps) = some ⟨img.width, img.height,
      buildData img.width img.height fun x y =>
        setRGBA (fccAux (getRGBA img x y) p
          (colorDistanceSq (getRGBA img x y) p) ps)⟩ := by
  unfold quantizeColors
  rw [quantLoop_eq img p ps, Option.map_some', rowMajor_flatMap_eq_buildData]

/-- Requantization stability: if a pixel's RGB channels already equal those of
the entry findClosestColor chose for some original pixel, findClosestColor
returns that same entry again (the entries placed before it in the palette
were strictly farther from the original pixel, hence cannot share its RGB). -/
lemma findClosestColor_requantize (pal : List Color) (pix pix2 chosen : Color)
    (hfc : findClosestColor pix pal = some chosen)
    (hr : pix2.r = chosen.r) (hg : pix2.g = chosen.g) (hb : pix2.b = chosen.b) :
    findClosestColor pix2 pal = some chosen := by
  obtain ⟨l1, l2, heq, hstrict, hle⟩ := findClosestColor_split pix pal chosen hfc
  have hzero : colorDistanceSq pix2 chosen = 0 := by
    rw [colorDistanceSq_eq_zero_iff, wsum_eq_zero_iff]
    exact ⟨hr, hg, hb⟩
  rw [heq]
  apply findClosestColor_first
  · intro e he
    rw [hzero]
    rcases lt_or_eq_of_le (colorDistanceSq_nonneg pix2 e) with hpos | hzero2
    · exact hpos
    · exfalso
      have hw : wsum pix2 e = 0 := (colorDistanceSq_eq_zero_iff pix2 e).mp hzero2.symm
      rw [wsum_eq_zero_iff] at hw
      have hsame : colorDistanceSq pix chosen = colorDistanceSq pix e := by
        refine colorDistanceSq_congr pix pix chosen e rfl rfl rfl ?_ ?_ ?_
        · rw [← hr]; exact hw.1
        · rw [← hg]; exact hw.2.1
        · rw [← hb]; exact hw.2.2
      have := hstrict e he
      linarith
  · intro e he
    rw [hzero]
    exact colorDistanceSq_nonneg pix2 e

/-- Idempotence of quantization for palettes of integer in-range RGB entries:
the written pixel reproduces its palette entry's RGB exactly, so the second
pass re-selects the same entry at every pixel. -/
lemma quantizeColors_idem (img : ImageData) (palette : List Color)
    (hne : palette ≠ [])
    (hint : ∀ e ∈ palette, IntChannels e) :
    (quantizeColors img palette).bind (fun o => quantizeColors o palette) =
      quantizeColors img palette := by
  obtain ⟨p, ps, rfl⟩ := List.exists_cons_of_ne_nil hne
  rw [quantizeColors_cons img p ps, Option.some_bind]
  set F : ℕ → ℕ → Color := fun x y =>
    fccAux (getRGBA img x y) p (colorDistanceSq (getRGBA img x y) p) ps with hF
  set out1 : ImageData := ⟨img.width, img.height,
    buildData img.width img.height fun x y => setRGBA (F x y)⟩ with hout1
  rw [quantizeColors_cons out1 p ps]
  congr 1
  refine ImageData.mk.injEq _ _ _ _ _ _ |>.mpr ⟨rfl, rfl, ?_⟩
  refine buildData_congr _ _ _ _ fun x y hx hy => ?_
  have hchosen_mem : F x y ∈ p :: ps := by
    show fccAux (getRGBA img x y) p (colorDistanceSq (getRGBA img x y) p) ps ∈ p :: ps
    rcases fccAux_mem (getRGBA img x y) ps p
        (colorDistanceSq (getRGBA img x y) p) with hm | hm
    · rw [hm]; exact List.mem_cons_self p ps
    · exact List.mem_cons_of_mem p hm
  obtain ⟨⟨nr, hnr, hnr2⟩, ⟨ng, hng, hng2⟩, ⟨nb, hnb, hnb2⟩⟩ := hint (F x y) hchosen_mem
  have hblock : ∀ j, j < 4 → out1.data.getD ((y * img.width + x) * 4 + j) 0 =
      (setRGBA (F x y)).getD j 0 := by
    intro j hj
    exact buildData_getD img.width img.height _ (fun a b => setRGBA_length _) x y j hx hy hj
  have hr2 : (getRGBA out1 x y).r = (F x y).r := by
    show out1.data.getD ((y * out1.width + x) * 4) 0 = (F x y).r
    have := hblock 0 (by norm_num)
    simp only [Nat.add_zero] at this
    rw [show (y * out1.width + x) * 4 = (y * img.width + x) * 4 from rfl, this]
    show clampRound (F x y).r = (F x y).r
    rw [hnr2, clampRound_natCast nr hnr]
  have hg2 : (getRGBA out1 x y).g = (F x y).g := by
    show out1.data.getD ((y * out1.width + x) * 4 + 1) 0 = (F x y).g
    rw [show (y * out1.width + x) * 4 + 1 = (y * img.width + x) * 4 + 1 from rfl,
      hblock 1 (by norm_num)]
    show clampRound (F x y).g = (F x y).g
    rw [hng2, clampRound_natCast ng hng]
  have hb2 : (getRGBA out1 x y).b = (F x y).b := by
    show out1.data.getD ((y * out1.width + x) * 4 + 2) 0 = (F x y).b
    rw [show (y * out1.width + x) * 4 + 2 = (y * img.width + x) * 4 + 2 from rfl,
      hblock 2 (by norm_num)]
    show clampRound (F x y).b = (F x y).b
    rw [hnb2, clampRound_natCast nb hnb]
  have hfc1 : findClosestColor (getRGBA img x y) (p :: ps) = some (F x y) := rfl
  have hfc2 : findClosestColor (getRGBA out1 x y) (p :: ps) = some (F x y) :=
    findClosestColor_requantize (p :: ps) (getRGBA img x y) (getRGBA out1 x y)
      (F x y) hfc1 hr2 hg2 hb2
  have : fccAux (getRGBA out1 x y) p (colorDistanceSq (getRGBA out1 x y) p) ps = F x y := by
    have h2 := hfc2
    simp only [findClosestColor, Option.some.injEq] at h2
    exact h2
  rw [this]

lemma resizeImage_dims (img : ImageData) (tw : ℕ) (r : ImageData)
    (h : resizeImage img tw = some r) :
    r.width = tw ∧
      r.height = (jsRound ((img.height : ℚ) * tw / img.width)).toNat := by
  simp only [resizeImage] at h
  split at h
  · simp at h
  · simp only [Option.some.injEq] at h
    rw [← h]
    exact ⟨rfl, rfl⟩

lemma detectAndPreserveEdges_width (img : ImageData) (t : ℚ) :
    (detectAndPreserveEdges img t).width = img.width := rfl

lemma detectAndPreserveEdges_height (img : ImageData) (t : ℚ) :
    (detectAndPreserveEdges img t).height = img.height := rfl

lemma convertToPixelArt_dims (st : PicPixellerState) (img : ImageData)
    (opts : Options) (out : ImageData)
    (h : convertToPixelArt st img opts = some out) :
    out.width = opts.targetWidth.getD 64 ∧
      out.height =
        (jsRound ((img.height : ℚ) * (opts.targetWidth.getD 64) / img.width)).toNat := by
  simp only [convertToPixelArt] at h
  split at h
  · simp at h
  · rename_i resized hres
    obtain ⟨hw, hh⟩ := resizeImage_dims img _ resized hres
    have hpw : (if opts.preserveEdges.getD true then
        detectAndPreserveEdges resized st.edgeThreshold else resized).width =
          resized.width := by
      split <;> rfl
    have hph : (if opts.preserveEdges.getD true then
        detectAndPreserveEdges resized st.edgeThreshold else resized).height =
          resized.height := by
      split <;> rfl
    split at h
    · obtain ⟨h1, h2⟩ := applyDithering_dims _ _ _ out h
      exact ⟨by rw [h1, hpw, hw], by rw [h2, hph, hh]⟩
    · obtain ⟨h1, h2⟩ := quantizeColors_dims _ _ out h
      exact ⟨by rw [h1, hpw, hw], by rw [h2, hph, hh]⟩

lemma rowMajorCoords_length (w h : ℕ) : (rowMajorCoords w h).length = w * h := by
  unfold rowMajorCoords
  rw [flatMap_const_length _ _ w fun y _ => by simp, List.length_range]

/-- Every color generatePalette emits is fully opaque. -/
lemma generatePalette_alpha (img : ImageData) (colorLimit : ℕ) :
    ∀ c ∈ generatePalette img colorLimit, c.a = 255 := by
  intro c hc
  simp only [generatePalette, List.mem_map] at hc
  obtain ⟨wc, _, hwc⟩ := hc
  rw [← hwc]

/-- Dropping the per-call ditheringStrength makes the conversion use the
instance options' value, and nothing else changes. -/
lemma convertToPixelArt_strength_omitted (st : PicPixellerState) (img : ImageData)
    (tw : Option ℕ) (cl : Option ℕ) (di : Option Bool) (pe : Option Bool)
    (eT : Option ℚ) (pL : Option ℚ) (pal : Option (List Color)) :
    convertToPixelArt st img ⟨tw, cl, di, pe, eT, pL, none, pal⟩ =
      convertToPixelArt st img ⟨tw, cl, di, pe, eT, pL, some st.ditheringStrength, pal⟩ := rfl

/-- A conversion given a nonempty palette completes with a full buffer
(4 bytes per output pixel) for every option record, valid or not, as long as
the resize step itself is dimensionally possible. -/
lemma convertToPixelArt_total (st : PicPixellerState) (img : ImageData)
    (opts : Options) (p : Color) (ps : List Color)
    (hpal : opts.palette = some (p :: ps)) (resized : ImageData)
    (hres : resizeImage img (opts.targetWidth.getD 64) = some resized) :
    ∃ out, convertToPixelArt st img opts = some out ∧
      out.data.length = 4 * (out.width * out.height) := by
  simp only [convertToPixelArt, hres, hpal, Option.getD_some]
  set procd : ImageData := if opts.preserveEdges.getD true = true then
    detectAndPreserveEdges resized st.edgeThreshold else resized with hprocd
  split
  · obtain ⟨d, hd, hlen⟩ := ditherLoop_total procd p ps
      (opts.ditheringStrength.getD st.ditheringStrength) procd.width procd.height
      (rowMajorCoords procd.width procd.height)
      (List.replicate procd.height (List.replicate procd.width ⟨0, 0, 0⟩))
    refine ⟨⟨procd.width, procd.height, d⟩, ?_, ?_⟩
    · simp only [applyDithering, hd, Option.map_some']
    · simp only [hlen, rowMajorCoords_length]
  · refine ⟨⟨procd.width, procd.height,
      buildData procd.width procd.height fun x y =>
        setRGBA (fccAux (getRGBA procd x y) p
          (colorDistanceSq (getRGBA procd x y) p) ps)⟩, ?_, ?_⟩
    · exact quantizeColors_cons procd p ps
    · simp only [buildData_length _ _ _ fun a b => setRGBA_length _]
      ring

lemma getRGBA_buildData (w h : ℕ) (f : ℕ → ℕ → List ℚ)
    (hf : ∀ a b, (f a b).length = 4) (x y : ℕ) (hx : x < w) (hy : y < h) :
    getRGBA ⟨w, h, buildData w h f⟩ x y =
      ⟨(f x y).getD 0 0, (f x y).getD 1 0, (f x y).getD 2 0, (f x y).getD 3 0⟩ := by
  have h0 := buildData_getD w h f hf x y 0 hx hy (by norm_num)
  have h1 := buildData_getD w h f hf x y 1 hx hy (by norm_num)
  have h2 := buildData_getD w h f hf x y 2 hx hy (by norm_num)
  have h3 := buildData_getD w h f hf x y 3 hx hy (by norm_num)
  simp only [Nat.add_zero] at h0
  simp only [getRGBA, Color.mk.injEq]
  exact ⟨h0, h1, h2, h3⟩

lemma isEdgePixel_iff (c : Color) (ns : List Color) (t : ℚ) :
    isEdgePixel c ns t = true ↔ ∃ n ∈ ns, t < |luma c - luma n| := by
  simp [isEdgePixel]

/-- Pointwise description of the edge-preservation output: a pixel keeps its
original bytes when it has no neighbors or is an edge pixel, and otherwise
receives the rounded neighbor average. -/
lemma detectAndPreserveEdges_getRGBA (img : ImageData) (t : ℚ) (x y : ℕ)
    (hx : x < img.width) (hy : y < img.height) :
    getRGBA (detectAndPreserveEdges img t) x y =
      (if getNeighborPixels img x y = [] then getRGBA img x y
       else if isEdgePixel (getRGBA img x y) (getNeighborPixels img x y) t then
         getRGBA img x y
       else
         ⟨clampRound (averageColor (getNeighborPixels img x y)).r,
          clampRound (averageColor (getNeighborPixels img x y)).g,
          clampRound (averageColor (getNeighborPixels img x y)).b,
          clampRound (averageColor (getNeighborPixels img x y)).a⟩) := by
  have hf : ∀ a b : ℕ,
      ((if getNeighborPixels img a b = [] then
          [(getRGBA img a b).r, (getRGBA img a b).g, (getRGBA img a b).b, (getRGBA img a b).a]
        else if isEdgePixel (getRGBA img a b) (getNeighborPixels img a b) t then
          [(getRGBA img a b).r, (getRGBA img a b).g, (getRGBA img a b).b, (getRGBA img a b).a]
        else setRGBA (averageColor (getNeighborPixels img a b))) : List ℚ).length = 4 := by
    intro a b
    split
    · rfl
    · split
      · rfl
      · rfl
  have hget := getRGBA_buildData img.width img.height
    (fun a b =>
      if getNeighborPixels img a b = [] then
        [(getRGBA img a b).r, (getRGBA img a b).g, (getRGBA img a b).b, (getRGBA img a b).a]
      else if isEdgePixel (getRGBA img a b) (getNeighborPixels img a b) t then
        [(getRGBA img a b).r, (getRGBA img a b).g, (getRGBA img a b).b, (getRGBA img a b).a]
      else setRGBA (averageColor (getNeighborPixels img a b))) hf x y hx hy
  refine Eq.trans hget ?_
  by_cases h1 : getNeighborPixels img x y = []
  · simp [h1]
  · by_cases h2 : isEdgePixel (getRGBA img x y) (getNeighborPixels img x y) t = true
    · simp [h1, h2]
    · simp [h1, h2, setRGBA]


/-- C1 counterexample: with targetWidth 1 (outside 8-256) and
ditheringStrength 2 (outside 0-1), and a valid supplied palette, the core
conversion does not return a failure value: it completes and returns a full
output buffer, so the eager-validation claim is false on the code. -/
theorem c1_counterexample :
    convertToPixelArt (PicPixeller.new noOptions) ⟨1, 1, [5, 5, 5, 255]⟩
      ⟨some 1, none, some true, some false, none, none, some 2, some [⟨0, 0, 0, 255⟩]⟩ =
      some ⟨1, 1, [0, 0, 0, 255]⟩ := by
  with_unfolding_all rfl

/-- C1 (amended): convertToPixelArt performs no validation of configuration
ranges or palette contents. A conversion with out-of-range targetWidth and
ditheringStrength and a supplied palette completes with a full buffer; in
general every conversion whose options carry a nonempty palette succeeds with
a complete 4-bytes-per-pixel buffer whenever the resize step is dimensionally
possible, regardless of any documented range; and an empty supplied palette
makes the conversion fail mid-pipeline (after resizing, at the first pixel of
color reduction), not eagerly before pixel processing. -/
theorem c1_no_eager_validation :
    (convertToPixelArt (PicPixeller.new noOptions) ⟨1, 1, [5, 5, 5, 255]⟩
        ⟨some 1, none, some true, some false, none, none, some 2, some [⟨0, 0, 0, 255⟩]⟩ =
        some ⟨1, 1, [0, 0, 0, 255]⟩) ∧
    (∀ (st : PicPixellerState) (img : ImageData) (opts : Options)
        (p : Color) (ps : List Color) (resized : ImageData),
        opts.palette = some (p :: ps) →
        resizeImage img (opts.targetWidth.getD 64) = some resized →
        ∃ out, convertToPixelArt st img opts = some out ∧
          out.data.length = 4 * (out.width * out.height)) ∧
    (convertToPixelArt (PicPixeller.new noOptions) ⟨1, 1, [5, 5, 5, 255]⟩
        ⟨some 1, none, some true, some false, none, none, some 2, some []⟩ = none) := by
  refine ⟨by with_unfolding_all rfl, ?_, by with_unfolding_all rfl⟩
  intro st img opts p ps resized h1 h2
  exact convertToPixelArt_total st img opts p ps h1 resized h2

/-- C1 witness: the general no-validation clause applied to a concrete
conversion with a nonempty palette. -/
theorem c1_witness :
    ((⟨some 1, none, some true, some false, none, none, some 2,
        some [⟨0, 0, 0, 255⟩]⟩ : Options).palette = some ((⟨0, 0, 0, 255⟩ : Color) :: [])) ∧
    (resizeImage ⟨1, 1, [6, 6, 6, 255]⟩
        ((⟨some 1, none, some true, some false, none, none, some 2,
          some [⟨0, 0, 0, 255⟩]⟩ : Options).targetWidth.getD 64) =
        some ⟨1, 1, [6, 6, 6, 255]⟩) ∧
    (∃ out, convertToPixelArt (PicPixeller.new noOptions) ⟨1, 1, [6, 6, 6, 255]⟩
        ⟨some 1, none, some true, some false, none, none, some 2, some [⟨0, 0, 0, 255⟩]⟩ =
        some out ∧ out.data.length = 4 * (out.width * out.height)) :=
  ⟨rfl, by with_unfolding_all rfl,
    c1_no_eager_validation.2.1 (PicPixeller.new noOptions) ⟨1, 1, [6, 6, 6, 255]⟩
      ⟨some 1, none, some true, some false, none, none, some 2, some [⟨0, 0, 0, 255⟩]⟩
      ⟨0, 0, 0, 255⟩ [] ⟨1, 1, [6, 6, 6, 255]⟩ rfl (by with_unfolding_all rfl)⟩

/-- C2 counterexample: distributing the residual (16,0,0) from (0,0) into a
3x3 zero grid does not produce the values the claim lists: in particular
errors[1][0].r is 5 (the 5/16 share of the (x, y+1) target), not 3, because
the (x-1, y+1) target is off-grid at x = 0 and its 3/16 share is dropped. -/
theorem c2_counterexample :
    ¬ ((((distributeError (List.replicate 3 (List.replicate 3 ⟨0, 0, 0⟩))
            ⟨16, 0, 0⟩ 0 0 3 3).getD 0 []).getD 1 ⟨0, 0, 0⟩).r = 7 ∧
       (((distributeError (List.replicate 3 (List.replicate 3 ⟨0, 0, 0⟩))
            ⟨16, 0, 0⟩ 0 0 3 3).getD 1 []).getD 0 ⟨0, 0, 0⟩).r = 3 ∧
       (((distributeError (List.replicate 3 (List.replicate 3 ⟨0, 0, 0⟩))
            ⟨16, 0, 0⟩ 0 0 3 3).getD 1 []).getD 1 ⟨0, 0, 0⟩).r = 5 ∧
       (((distributeError (List.replicate 3 (List.replicate 3 ⟨0, 0, 0⟩))
            ⟨16, 0, 0⟩ 0 0 3 3).getD 1 []).getD 2 ⟨0, 0, 0⟩).r = 1) := by
  have hgrid : distributeError (List.replicate 3 (List.replicate 3 ⟨0, 0, 0⟩))
      ⟨16, 0, 0⟩ 0 0 3 3 =
      [[⟨0, 0, 0⟩, ⟨7, 0, 0⟩, ⟨0, 0, 0⟩],
       [⟨5, 0, 0⟩, ⟨1, 0, 0⟩, ⟨0, 0, 0⟩],
       [⟨0, 0, 0⟩, ⟨0, 0, 0⟩, ⟨0, 0, 0⟩]] := by
    with_unfolding_all rfl
  intro h
  rw [hgrid] at h
  simp at h

/-- C2 (amended): distributing a residual of (16,0,0) from (0,0) into a 3x3
zero grid leaves errors[0][1].r = 7 (weight 7/16 at (x+1, y)),
errors[1][0].r = 5 (weight 5/16 at (x, y+1)) and errors[1][1].r = 1 (weight
1/16 at (x+1, y+1)); the (x-1, y+1) target is off-grid, so its 3/16 share
(3) is dropped and every other entry stays zero. -/
theorem c2_floyd_steinberg_weights :
    distributeError (List.replicate 3 (List.replicate 3 ⟨0, 0, 0⟩))
        ⟨16, 0, 0⟩ 0 0 3 3 =
      [[⟨0, 0, 0⟩, ⟨7, 0, 0⟩, ⟨0, 0, 0⟩],
       [⟨5, 0, 0⟩, ⟨1, 0, 0⟩, ⟨0, 0, 0⟩],
       [⟨0, 0, 0⟩, ⟨0, 0, 0⟩, ⟨0, 0, 0⟩]] := by
  with_unfolding_all rfl

/-- C3: for every input buffer and every nonempty palette, dithering with
strength 0 produces a buffer pixel-for-pixel identical to direct
quantization with the same palette. -/
theorem c3_strength_zero_equals_quantize (img : ImageData) (palette : List Color)
    (_hpal : palette ≠ []) :
    applyDithering img palette 0 = quantizeColors img palette := by
  simp only [applyDithering, quantizeColors, ditherLoop_zero]

/-- C3 witness: strength-0 dithering coincides with quantization on a
concrete buffer and palette. -/
theorem c3_witness :
    (([⟨0, 0, 0, 255⟩, ⟨255, 255, 255, 255⟩] : List Color) ≠ []) ∧
    applyDithering ⟨2, 1, [100, 100, 100, 255, 120, 120, 120, 255]⟩
        [⟨0, 0, 0, 255⟩, ⟨255, 255, 255, 255⟩] 0 =
      quantizeColors ⟨2, 1, [100, 100, 100, 255, 120, 120, 120, 255]⟩
        [⟨0, 0, 0, 255⟩, ⟨255, 255, 255, 255⟩] :=
  ⟨List.cons_ne_nil _ _,
    c3_strength_zero_equals_quantize _ _ (List.cons_ne_nil _ _)⟩

/-- C4: an 8x8 buffer of RGB (10,10,10) quantized against the palette
[black, red] yields pure black at every output pixel, and the unpenalized
distance from (10,10,10) to pure black is smaller than its distance to red. -/
theorem c4_near_black_quantizes_to_black :
    quantizeColors ⟨8, 8, buildData 8 8 fun _ _ => [10, 10, 10, 255]⟩
        [⟨0, 0, 0, 255⟩, ⟨255, 0, 0, 255⟩] =
      some ⟨8, 8, buildData 8 8 fun _ _ => [0, 0, 0, 255]⟩ ∧
    colorDistance ⟨10, 10, 10, 255⟩ ⟨0, 0, 0, 255⟩ <
      colorDistance ⟨10, 10, 10, 255⟩ ⟨255, 0, 0, 255⟩ := by
  constructor
  · with_unfolding_all rfl
  · rw [colorDistance_lt_iff]
    norm_num [colorDistanceSq, wsum, isGrayCandidate, weightR, weightG, weightB]

/-- C5: for every source buffer with positive dimensions, a completed
conversion has width equal to the configured targetWidth and height equal to
round(inputHeight * targetWidth / inputWidth); and the edge-preservation and
color-reduction stages never change the dimensions of their input buffer. -/
theorem c5_output_dimensions :
    (∀ (st : PicPixellerState) (img : ImageData) (opts : Options) (out : ImageData),
        0 < img.width → 0 < img.height →
        convertToPixelArt st img opts = some out →
        out.width = opts.targetWidth.getD 64 ∧
          out.height =
            (jsRound ((img.height : ℚ) * (opts.targetWidth.getD 64) / img.width)).toNat) ∧
    (∀ (img : ImageData) (t : ℚ),
        (detectAndPreserveEdges img t).width = img.width ∧
        (detectAndPreserveEdges img t).height = img.height) ∧
    (∀ (img : ImageData) (pal : List Color) (out : ImageData),
        quantizeColors img pal = some out →
        out.width = img.width ∧ out.height = img.height) ∧
    (∀ (img : ImageData) (pal : List Color) (s : ℚ) (out : ImageData),
        applyDithering img pal s = some out →
        out.width = img.width ∧ out.height = img.height) :=
  ⟨fun st img opts out _ _ h => convertToPixelArt_dims st img opts out h,
   fun _ _ => ⟨rfl, rfl⟩,
   fun img pal out h => quantizeColors_dims img pal out h,
   fun img pal s out h => applyDithering_dims img pal s out h⟩

/-- C5 witness: dimensions of a concrete completed conversion. -/
theorem c5_witness :
    0 < (⟨1, 1, [5, 5, 5, 255]⟩ : ImageData).width ∧
    0 < (⟨1, 1, [5, 5, 5, 255]⟩ : ImageData).height ∧
    convertToPixelArt (PicPixeller.new noOptions) ⟨1, 1, [5, 5, 5, 255]⟩
      ⟨some 1, none, some false, some false, none, none, none, some [⟨0, 0, 0, 255⟩]⟩ =
      some ⟨1, 1, [0, 0, 0, 255]⟩ ∧
    ((⟨1, 1, [0, 0, 0, 255]⟩ : ImageData).width =
        (⟨some 1, none, some false, some false, none, none, none,
          some [⟨0, 0, 0, 255⟩]⟩ : Options).targetWidth.getD 64 ∧
     (⟨1, 1, [0, 0, 0, 255]⟩ : ImageData).height =
        (jsRound (((⟨1, 1, [5, 5, 5, 255]⟩ : ImageData).height : ℚ) *
          ((⟨some 1, none, some false, some false, none, none, none,
            some [⟨0, 0, 0, 255⟩]⟩ : Options).targetWidth.getD 64) /
          (⟨1, 1, [5, 5, 5, 255]⟩ : ImageData).width)).toNat) :=
  ⟨by decide, by decide, by with_unfolding_all rfl,
    c5_output_dimensions.1 (PicPixeller.new noOptions) ⟨1, 1, [5, 5, 5, 255]⟩
      ⟨some 1, none, some false, some false, none, none, none, some [⟨0, 0, 0, 255⟩]⟩
      ⟨1, 1, [0, 0, 0, 255]⟩ (by decide) (by decide) (by with_unfolding_all rfl)⟩

/-- C6: colorDistance of any color to itself is 0 (also for achromatic
colors, where the 1.5 penalty multiplies a zero distance), and the distance
is asymmetric under the grayscale penalty: with a = (255,0,0) and
b = (100,100,100), colorDistance a b is 1.5 times the unpenalized value
while colorDistance b a is unpenalized, so the two differ. -/
theorem c6_distance_zero_and_asymmetry :
    (∀ c : Color, colorDistance c c = 0) ∧
    colorDistance ⟨255, 0, 0, 255⟩ ⟨100, 100, 100, 255⟩ ≠
      colorDistance ⟨100, 100, 100, 255⟩ ⟨255, 0, 0, 255⟩ := by
  constructor
  · intro c
    unfold colorDistance
    rw [wsum_self]
    simp
  · intro heq
    have hgray : isGrayCandidate ⟨100, 100, 100, 255⟩ := by
      unfold isGrayCandidate
      norm_num
    have hnotgray : ¬ isGrayCandidate ⟨255, 0, 0, 255⟩ := by
      unfold isGrayCandidate
      norm_num
    have hq : wsum (⟨255, 0, 0, 255⟩ : Color) ⟨100, 100, 100, 255⟩ =
        wsum (⟨100, 100, 100, 255⟩ : Color) ⟨255, 0, 0, 255⟩ := by
      unfold wsum
      ring
    have hpos : (0 : ℚ) < wsum (⟨255, 0, 0, 255⟩ : Color) ⟨100, 100, 100, 255⟩ := by
      unfold wsum weightR weightG weightB
      norm_num
    unfold colorDistance at heq
    rw [if_pos hgray, if_neg hnotgray, ← hq] at heq
    have hs : (0 : ℝ) <
        Real.sqrt ((wsum (⟨255, 0, 0, 255⟩ : Color) ⟨100, 100, 100, 255⟩ : ℚ) : ℝ) := by
      apply Real.sqrt_pos.mpr
      exact_mod_cast hpos
    nlinarith [heq, hs]

/-- C7 counterexample: quantization is not idempotent for arbitrary palettes
with channel values in [0, 255]. With the 1x1 buffer (100,100,101) and the
palette [(100.5, 100.5, 100.5), (101, 101, 100.4)], the first pass picks the
gray entry and writes its rounding (101,101,101); the second pass picks the
other entry for that pixel and writes (101,101,100). -/
theorem c7_counterexample :
    (quantizeColors ⟨1, 1, [100, 100, 101, 255]⟩
        [⟨201 / 2, 201 / 2, 201 / 2, 255⟩, ⟨101, 101, 502 / 5, 255⟩]).bind
        (fun o => quantizeColors o
          [⟨201 / 2, 201 / 2, 201 / 2, 255⟩, ⟨101, 101, 502 / 5, 255⟩]) ≠
      quantizeColors ⟨1, 1, [100, 100, 101, 255]⟩
        [⟨201 / 2, 201 / 2, 201 / 2, 255⟩, ⟨101, 101, 502 / 5, 255⟩] := by
  have h1 : quantizeColors ⟨1, 1, [100, 100, 101, 255]⟩
      [⟨201 / 2, 201 / 2, 201 / 2, 255⟩, ⟨101, 101, 502 / 5, 255⟩] =
      some ⟨1, 1, [101, 101, 101, 255]⟩ := by
    with_unfolding_all rfl
  have h2 : (quantizeColors ⟨1, 1, [100, 100, 101, 255]⟩
      [⟨201 / 2, 201 / 2, 201 / 2, 255⟩, ⟨101, 101, 502 / 5, 255⟩]).bind
      (fun o => quantizeColors o
        [⟨201 / 2, 201 / 2, 201 / 2, 255⟩, ⟨101, 101, 502 / 5, 255⟩]) =
      some ⟨1, 1, [101, 101, 100, 255]⟩ := by
    with_unfolding_all rfl
  rw [h2, h1]
  intro heq
  simp only [Option.some.injEq, ImageData.mk.injEq, List.cons.injEq, true_and] at heq
  norm_num at heq

/-- C7 (amended): quantization is idempotent for every buffer and every
nonempty palette whose entries have integer RGB channels in [0, 255] (the
form generatePalette produces and the palette text format describes):
rounding then reproduces each chosen entry's RGB exactly, and the second pass
re-selects the same entry at every pixel. -/
theorem c7_quantize_idempotent (img : ImageData) (palette : List Color)
    (hne : palette ≠ []) (hint : ∀ e ∈ palette, IntChannels e) :
    (quantizeColors img palette).bind (fun o => quantizeColors o palette) =
      quantizeColors img palette :=
  quantizeColors_idem img palette hne hint

/-- C7 witness: idempotence applied to a concrete buffer and an integer
palette. -/
theorem c7_witness :
    (([⟨0, 0, 0, 255⟩, ⟨200, 10, 30, 255⟩] : List Color) ≠ []) ∧
    (∀ e ∈ ([⟨0, 0, 0, 255⟩, ⟨200, 10, 30, 255⟩] : List Color), IntChannels e) ∧
    (quantizeColors ⟨1, 1, [90, 4, 20, 255]⟩ [⟨0, 0, 0, 255⟩, ⟨200, 10, 30, 255⟩]).bind
        (fun o => quantizeColors o [⟨0, 0, 0, 255⟩, ⟨200, 10, 30, 255⟩]) =
      quantizeColors ⟨1, 1, [90, 4, 20, 255]⟩ [⟨0, 0, 0, 255⟩, ⟨200, 10, 30, 255⟩] := by
  have hint : ∀ e ∈ ([⟨0, 0, 0, 255⟩, ⟨200, 10, 30, 255⟩] : List Color), IntChannels e := by
    intro e he
    rcases List.mem_cons.mp he with h | h
    · subst h
      exact ⟨⟨0, by norm_num, by norm_num⟩, ⟨0, by norm_num, by norm_num⟩,
        ⟨0, by norm_num, by norm_num⟩⟩
    · rcases List.mem_cons.mp h with h2 | h2
      · subst h2
        exact ⟨⟨200, by norm_num, by norm_num⟩, ⟨10, by norm_num, by norm_num⟩,
          ⟨30, by norm_num, by norm_num⟩⟩
      · simp at h2
  exact ⟨List.cons_ne_nil _ _, hint,
    c7_quantize_idempotent ⟨1, 1, [90, 4, 20, 255]⟩ _ (List.cons_ne_nil _ _) hint⟩

/-- C8: in the edge-preservation pass, a pixel with no in-bounds neighbors is
left unmodified; a pixel whose weighted luma differs from some neighbor's by
strictly more than the threshold keeps its input value unchanged; and any
other pixel with at least one neighbor receives the unweighted average
(including alpha, rounded on write-back per the data model) of its in-bounds
neighbors, all of which are read from the original input buffer since the
output is assembled from the input alone. -/
theorem c8_edge_preservation (img : ImageData) (t : ℚ) (x y : ℕ)
    (hx : x < img.width) (hy : y < img.height) :
    (getNeighborPixels img x y = [] →
      getRGBA (detectAndPreserveEdges img t) x y = getRGBA img x y) ∧
    ((∃ n ∈ getNeighborPixels img x y, t < |luma (getRGBA img x y) - luma n|) →
      getRGBA (detectAndPreserveEdges img t) x y = getRGBA img x y) ∧
    (getNeighborPixels img x y ≠ [] →
      ¬ (∃ n ∈ getNeighborPixels img x y, t < |luma (getRGBA img x y) - luma n|) →
      getRGBA (detectAndPreserveEdges img t) x y =
        ⟨clampRound (averageColor (getNeighborPixels img x y)).r,
         clampRound (averageColor (getNeighborPixels img x y)).g,
         clampRound (averageColor (getNeighborPixels img x y)).b,
         clampRound (averageColor (getNeighborPixels img x y)).a⟩) := by
  have hchar := detectAndPreserveEdges_getRGBA img t x y hx hy
  refine ⟨?_, ?_, ?_⟩
  · intro h1
    rw [hchar, if_pos h1]
  · intro hex
    have hedge : isEdgePixel (getRGBA img x y) (getNeighborPixels img x y) t = true :=
      (isEdgePixel_iff _ _ _).mpr hex
    have hne : getNeighborPixels img x y ≠ [] := by
      obtain ⟨n, hn, _⟩ := hex
      intro hnil
      rw [hnil] at hn
      simp at hn
    rw [hchar, if_neg hne, if_pos hedge]
  · intro hne hnex
    have hedge : ¬ (isEdgePixel (getRGBA img x y) (getNeighborPixels img x y) t = true) :=
      fun hcontra => hnex ((isEdgePixel_iff _ _ _).mp hcontra)
    rw [hchar, if_neg hne, if_neg hedge]

/-- C8 witness: on a 2x1 black-and-white buffer with threshold 100, pixel
(0,0) has one neighbor, the luma difference 255 exceeds the threshold, and
the pixel passes through unchanged. -/
theorem c8_witness :
    0 < (⟨2, 1, [0, 0, 0, 255, 255, 255, 255, 255]⟩ : ImageData).width ∧
    0 < (⟨2, 1, [0, 0, 0, 255, 255, 255, 255, 255]⟩ : ImageData).height ∧
    ((getNeighborPixels ⟨2, 1, [0, 0, 0, 255, 255, 255, 255, 255]⟩ 0 0 = [] →
      getRGBA (detectAndPreserveEdges ⟨2, 1, [0, 0, 0, 255, 255, 255, 255, 255]⟩ 100) 0 0 =
        getRGBA ⟨2, 1, [0, 0, 0, 255, 255, 255, 255, 255]⟩ 0 0) ∧
    ((∃ n ∈ getNeighborPixels ⟨2, 1, [0, 0, 0, 255, 255, 255, 255, 255]⟩ 0 0,
        (100 : ℚ) < |luma (getRGBA ⟨2, 1, [0, 0, 0, 255, 255, 255, 255, 255]⟩ 0 0) - luma n|) →
      getRGBA (detectAndPreserveEdges ⟨2, 1, [0, 0, 0, 255, 255, 255, 255, 255]⟩ 100) 0 0 =
        getRGBA ⟨2, 1, [0, 0, 0, 255, 255, 255, 255, 255]⟩ 0 0) ∧
    (getNeighborPixels ⟨2, 1, [0, 0, 0, 255, 255, 255, 255, 255]⟩ 0 0 ≠ [] →
      ¬ (∃ n ∈ getNeighborPixels ⟨2, 1, [0, 0, 0, 255, 255, 255, 255, 255]⟩ 0 0,
          (100 : ℚ) < |luma (getRGBA ⟨2, 1, [0, 0, 0, 255, 255, 255, 255, 255]⟩ 0 0) - luma n|) →
      getRGBA (detectAndPreserveEdges ⟨2, 1, [0, 0, 0, 255, 255, 255, 255, 255]⟩ 100) 0 0 =
        ⟨clampRound (averageColor
            (getNeighborPixels ⟨2, 1, [0, 0, 0, 255, 255, 255, 255, 255]⟩ 0 0)).r,
         clampRound (averageColor
            (getNeighborPixels ⟨2, 1, [0, 0, 0, 255, 255, 255, 255, 255]⟩ 0 0)).g,
         clampRound (averageColor
            (getNeighborPixels ⟨2, 1, [0, 0, 0, 255, 255, 255, 255, 255]⟩ 0 0)).b,
         clampRound (averageColor
            (getNeighborPixels ⟨2, 1, [0, 0, 0, 255, 255, 255, 255, 255]⟩ 0 0)).a⟩)) :=
  ⟨by decide, by decide,
    c8_edge_preservation ⟨2, 1, [0, 0, 0, 255, 255, 255, 255, 255]⟩ 100 0 0
      (by decide) (by decide)⟩

/-- C9 counterexample: omitting ditheringStrength from the conversion options
does not behave like strength 0.3: on a concrete two-pixel buffer with a
black-and-white palette, the conversion with the field omitted (which falls
back to the constructor default 1.0) differs from the conversion with an
explicit 0.3. -/
theorem c9_counterexample :
    convertToPixelArt (PicPixeller.new noOptions)
        ⟨2, 1, [100, 100, 100, 255, 120, 120, 120, 255]⟩
        ⟨some 2, none, some true, some false, none, none, none,
          some [⟨0, 0, 0, 255⟩, ⟨255, 255, 255, 255⟩]⟩ ≠
      convertToPixelArt (PicPixeller.new noOptions)
        ⟨2, 1, [100, 100, 100, 255, 120, 120, 120, 255]⟩
        ⟨some 2, none, some true, some false, none, none, some (3 / 10),
          some [⟨0, 0, 0, 255⟩, ⟨255, 255, 255, 255⟩]⟩ := by
  have h1 : convertToPixelArt (PicPixeller.new noOptions)
      ⟨2, 1, [100, 100, 100, 255, 120, 120, 120, 255]⟩
      ⟨some 2, none, some true, some false, none, none, none,
        some [⟨0, 0, 0, 255⟩, ⟨255, 255, 255, 255⟩]⟩ =
      some ⟨2, 1, [0, 0, 0, 255, 255, 255, 255, 255]⟩ := by
    with_unfolding_all rfl
  have h2 : convertToPixelArt (PicPixeller.new noOptions)
      ⟨2, 1, [100, 100, 100, 255, 120, 120, 120, 255]⟩
      ⟨some 2, none, some true, some false, none, none, some (3 / 10),
        some [⟨0, 0, 0, 255⟩, ⟨255, 255, 255, 255⟩]⟩ =
      some ⟨2, 1, [0, 0, 0, 255, 0, 0, 0, 255]⟩ := by
    with_unfolding_all rfl
  rw [h1, h2]
  intro heq
  simp only [Option.some.injEq, ImageData.mk.injEq, List.cons.injEq, true_and] at heq
  norm_num at heq

/-- C9 (amended): when the constructor options omit ditheringStrength the
instance default is 1.0 (not 0.3, which is only the UI slider's initial
state); when they omit edgeThreshold the default is 100; and a conversion
whose per-call options omit ditheringStrength behaves exactly as one given
the instance options' strength explicitly. -/
theorem c9_default_strength :
    (∀ opts0 : Options, opts0.ditheringStrength = none →
        (PicPixeller.new opts0).ditheringStrength = 1) ∧
    (∀ opts0 : Options, opts0.edgeThreshold = none →
        (PicPixeller.new opts0).edgeThreshold = 100) ∧
    (∀ (st : PicPixellerState) (img : ImageData) (tw : Option ℕ) (cl : Option ℕ)
        (di : Option Bool) (pe : Option Bool) (eT : Option ℚ) (pL : Option ℚ)
        (pal : Option (List Color)),
        convertToPixelArt st img ⟨tw, cl, di, pe, eT, pL, none, pal⟩ =
          convertToPixelArt st img ⟨tw, cl, di, pe, eT, pL, some st.ditheringStrength, pal⟩) := by
  refine ⟨?_, ?_, ?_⟩
  · intro o h
    simp [PicPixeller.new, h]
  · intro o h
    simp [PicPixeller.new, h]
  · intro st img tw cl di pe eT pL pal
    exact convertToPixelArt_strength_omitted st img tw cl di pe eT pL pal

/-- C9 witness: the default strength clause applied to the empty options. -/
theorem c9_witness :
    noOptions.ditheringStrength = none ∧
      (PicPixeller.new noOptions).ditheringStrength = 1 :=
  ⟨rfl, c9_default_strength.1 noOptions rfl⟩

/-- C10: every palette generatePalette produces is fully opaque, and for any
palette whose entries all carry alpha 255, every alpha byte written by
quantizeColors and by applyDithering is exactly 255 whatever the input
pixels' alpha values were: both color-reduction modes write the chosen
palette entry's alpha. -/
theorem c10_color_reduction_opaque :
    (∀ (img : ImageData) (colorLimit : ℕ),
        ∀ c ∈ generatePalette img colorLimit, c.a = 255) ∧
    (∀ (img : ImageData) (palette : List Color),
        (∀ e ∈ palette, e.a = 255) →
        ∀ out : ImageData, quantizeColors img palette = some out →
        ∀ i, 4 * i + 3 < out.data.length → out.data.getD (4 * i + 3) 0 = 255) ∧
    (∀ (img : ImageData) (palette : List Color) (s : ℚ),
        (∀ e ∈ palette, e.a = 255) →
        ∀ out : ImageData, applyDithering img palette s = some out →
        ∀ i, 4 * i + 3 < out.data.length → out.data.getD (4 * i + 3) 0 = 255) := by
  refine ⟨generatePalette_alpha, ?_, ?_⟩
  · intro img palette hpal out hout i hi
    unfold quantizeColors at hout
    rw [Option.map_eq_some'] at hout
    obtain ⟨d, hd, hout2⟩ := hout
    rw [← hout2] at hi ⊢
    exact quantLoop_alpha img palette hpal _ d hd i hi
  · intro img palette s hpal out hout i hi
    unfold applyDithering at hout
    simp only [Option.map_eq_some'] at hout
    obtain ⟨d, hd, hout2⟩ := hout
    rw [← hout2] at hi ⊢
    exact ditherLoop_alpha img palette s img.width img.height hpal _ _ d hd i hi

/-- C10 witness: quantizing a pixel whose input alpha is 10 against an opaque
palette writes alpha 255. -/
theorem c10_witness :
    (∀ e ∈ ([⟨0, 0, 0, 255⟩] : List Color), e.a = 255) ∧
    quantizeColors ⟨1, 1, [5, 5, 5, 10]⟩ [⟨0, 0, 0, 255⟩] =
      some ⟨1, 1, [0, 0, 0, 255]⟩ ∧
    (∀ i, 4 * i + 3 < (⟨1, 1, [0, 0, 0, 255]⟩ : ImageData).data.length →
      (⟨1, 1, [0, 0, 0, 255]⟩ : ImageData).data.getD (4 * i + 3) 0 = 255) := by
  have hpal : ∀ e ∈ ([⟨0, 0, 0, 255⟩] : List Color), e.a = 255 := by
    intro e he
    rcases List.mem_cons.mp he with h | h
    · subst h
      rfl
    · simp at h
  have hq : quantizeColors ⟨1, 1, [5, 5, 5, 10]⟩ [⟨0, 0, 0, 255⟩] =
      some ⟨1, 1, [0, 0, 0, 255]⟩ := by
    with_unfolding_all rfl
  exact ⟨hpal, hq,
    c10_color_reduction_opaque.2.1 ⟨1, 1, [5, 5, 5, 10]⟩ [⟨0, 0, 0, 255⟩] hpal
      ⟨1, 1, [0, 0, 0, 255]⟩ hq⟩
